import Mathlib

/-!
Verification of the participation-analytics engine of the AI_MeetingBot
repository (backend/server.mjs and frontend/src/App.jsx).

All JavaScript numbers that the analytics code manipulates are embedded as
rationals; JavaScript objects used as string-keyed dictionaries are embedded
as insertion-ordered association lists, which matches the iteration order of
`Object.entries` on such objects.
-/

namespace MeetingBot

/--
One transcript entry as the analytics code consumes it.  `speakerName = ""`
models an absent or empty name (both are falsy in `t.speakerName || "Unknown"`).
`createdAt` models the string field of the same name: `none` when the property
is absent or the string empty (falsy), `some p` when a non-empty string is
present, where `p` is the result of `toSeconds` on it (`none` when
`Date.parse` fails, `some q` for a string parsing to `q * 1000` milliseconds).
`wordsStartSec` models `t.words[0]?.start_timestamp?.absolute`.
-/
structure Utterance where
  speakerName : String
  text : String
  createdAt : Option (Option ℚ)
  wordsStartSec : Option ℚ
  startSec : Option ℚ
  endSec : Option ℚ
deriving DecidableEq, Inhabited

/-- `t.speakerName || "Unknown"` (server.mjs line 210 and elsewhere). -/
def effName (t : Utterance) : String :=
  if t.speakerName = "" then "Unknown" else t.speakerName

/-- Characters matched by the `/\s+/` separator used for word splitting. -/
def isWs (c : Char) : Bool :=
  c == ' ' || c == '\t' || c == '\n' || c == '\r'

/-- `text.split(/\s+/).filter(Boolean).length` — the number of non-empty
whitespace-separated tokens. -/
def wordCount (s : String) : ℕ :=
  ((s.split isWs).filter (fun w => w != "")).length

/--
The timestamp the participation loop extracts from an utterance
(server.mjs lines 245-249):
`toSeconds(t.createdAt || (t.words && t.words[0]?.start_timestamp?.absolute) || t.startSec)`.
The `||` chain selects the first truthy raw value, then `toSeconds` converts:
a present non-empty `createdAt` string is truthy and wins even when unparseable;
a numeric `words` timestamp is truthy unless it is `0`; `startSec` is last.
-/
def timeOf (t : Utterance) : Option ℚ :=
  match t.createdAt with
  | some parsed => parsed
  | none =>
    match t.wordsStartSec with
    | some w => if w = 0 then t.startSec else some w
    | none => t.startSec

/-- `obj[k] = (obj[k] || 0) + v` on a string-keyed object: update the existing
entry in place, or append a fresh key at the end (JS insertion order). -/
def bump : List (String × ℕ) → String → ℕ → List (String × ℕ)
  | [], k, v => [(k, v)]
  | p :: rest, k, v =>
    if p.1 = k then (p.1, p.2 + v) :: rest else p :: bump rest k v

/-- One utterance's contribution to the word-count object
(server.mjs lines 210-212). -/
def wcStep (m : List (String × ℕ)) (t : Utterance) : List (String × ℕ) :=
  bump m (effName t) (wordCount t.text)

/-- Per-speaker word counts of a transcript list (server.mjs lines 209-213):
one `bump` per utterance, keys created in first-appearance order. -/
def wordCountsOf (ts : List Utterance) : List (String × ℕ) :=
  ts.foldl wcStep []

/-- `Object.values(wordCounts).reduce((s, v) => s + v, 0)`. -/
def valuesSum (m : List (String × ℕ)) : ℕ :=
  (m.map (fun p => p.2)).sum

/-- The share map built from word counts (server.mjs lines 219-221):
`count / totalWords` when the total is positive, else `0`. -/
def shareEntries (wc : List (String × ℕ)) (T : ℕ) : List (String × ℚ) :=
  wc.map (fun p => (p.1, if 0 < T then (p.2 : ℚ) / T else 0))

/-- One step of the dominant-speaker scan (server.mjs lines 222-226):
`if (share > dominantShare) { dominantShare = share; dominantSpeaker = name; }`. -/
def domStep (a : Option String × ℚ) (p : String × ℚ) : Option String × ℚ :=
  if a.2 < p.2 then (some p.1, p.2) else a

/-- The dominant-speaker scan over the share entries, starting from
`dominantSpeaker = null, dominantShare = 0`. -/
def domOf (shares : List (String × ℚ)) : Option String × ℚ :=
  shares.foldl domStep (none, 0)

/-- The `longestSilence` record (server.mjs lines 240, 258-263). -/
structure LongestSilence where
  durationSec : ℚ
  fromSec : Option ℚ
  toSec : Option ℚ
deriving DecidableEq, Inhabited

/-- The mutable state of the turn-taking loop (server.mjs lines 234-240). -/
structure LoopState where
  transitions : ℕ
  interruptions : ℕ
  prevSpeaker : Option String
  prevTime : Option ℚ
  firstTime : Option ℚ
  lastTime : Option ℚ
  longest : LongestSilence
deriving DecidableEq, Inhabited

def loopInit : LoopState :=
  { transitions := 0, interruptions := 0, prevSpeaker := none,
    prevTime := none, firstTime := none, lastTime := none,
    longest := { durationSec := 0, fromSec := none, toSec := none } }

/--
One iteration of `transcripts.forEach` in the turn-taking loop
(server.mjs lines 242-271): update first/last seen timestamps, and on a
speaker change count a transition; when both neighbouring timestamps exist,
a gap larger than the current `longestSilence.durationSec` replaces it, and a
gap in `[0, 1.5]` counts one interruption.
-/
def loopStep (st : LoopState) (t : Utterance) : LoopState :=
  let cur := effName t
  let curTime := timeOf t
  let firstTime :=
    match curTime, st.firstTime with
    | some c, none => some c
    | _, _ => st.firstTime
  let lastTime :=
    match curTime with
    | some c => some c
    | none => st.lastTime
  match st.prevSpeaker with
  | some p =>
    if p ≠ cur then
      match st.prevTime, curTime with
      | some pt, some ct =>
        let gap := ct - pt
        { transitions := st.transitions + 1
          interruptions :=
            if 0 ≤ gap ∧ gap ≤ 3/2 then st.interruptions + 1
            else st.interruptions
          prevSpeaker := some cur
          prevTime := curTime
          firstTime := firstTime
          lastTime := lastTime
          longest :=
            if st.longest.durationSec < gap then
              { durationSec := gap, fromSec := some pt, toSec := some ct }
            else st.longest }
      | _, _ =>
        { st with transitions := st.transitions + 1, prevSpeaker := some cur,
                  prevTime := curTime, firstTime := firstTime,
                  lastTime := lastTime }
    else
      { st with prevSpeaker := some cur, prevTime := curTime,
                firstTime := firstTime, lastTime := lastTime }
  | none =>
    { st with prevSpeaker := some cur, prevTime := curTime,
              firstTime := firstTime, lastTime := lastTime }

def loopOf (ts : List Utterance) : LoopState :=
  ts.foldl loopStep loopInit

/-- `transcripts.slice(-windowSize)`: the last `windowSize` elements; JS
`slice(-0)` is `slice(0)`, the whole array. -/
def sliceLast (xs : List Utterance) (w : ℕ) : List Utterance :=
  if w = 0 then xs else xs.drop (xs.length - w)

/-- The `window` field of the returned metrics (server.mjs lines 303-306). -/
structure WindowInfo where
  dominantSpeaker : Option String
  dominantShare : ℚ
deriving DecidableEq, Inhabited

/--
The object returned by `computeParticipationMetrics` (server.mjs lines
291-311), with exactly the properties the source constructs.  The source
sets no `silence`, `turnTakingPerMin`, `interruptionCounts`, `balance`,
`topInterrupter` or `speakingTimeSec` property on it.
-/
structure Snapshot where
  totalWords : ℕ
  totalTurns : ℕ
  speakingShare : List (String × ℚ)
  dominantSpeaker : Option String
  dominantShare : ℚ
  underrepresented : List (String × ℚ)
  transitions : ℕ
  interruptions : ℕ
  longestSilence : LongestSilence
  window : WindowInfo
  durationSec : Option ℚ
deriving DecidableEq, Inhabited

/--
The snapshot that `computeParticipationMetrics` constructs once past its
empty-input guard (server.mjs lines 208-311).  The JS function computes
`speakingShare`, the dominant speaker and the shares in one pass over
`Object.entries(wordCounts)`; this embedding expresses the identical pass as
a map (`shareEntries`) plus a fold (`domOf`) over the same entries in the
same order.
-/
def buildSnapshot (transcripts : List Utterance) (windowSize : ℕ) : Snapshot :=
  let wc := wordCountsOf transcripts
  let T := valuesSum wc
  let shares := shareEntries wc T
  let dom := domOf shares
  let st := loopOf transcripts
  let recent := sliceLast transcripts windowSize
  let rc := wordCountsOf recent
  let rdom := domOf (shareEntries rc (valuesSum rc))
  { totalWords := T
    totalTurns := transcripts.length
    speakingShare := shares
    dominantSpeaker := dom.1
    dominantShare := dom.2
    underrepresented := shares.filter (fun p => p.2 < 1/5)
    transitions := st.transitions
    interruptions := st.interruptions
    longestSilence := st.longest
    window := { dominantSpeaker := rdom.1, dominantShare := rdom.2 }
    durationSec :=
      match st.firstTime, st.lastTime with
      | some f, some l => some (max 0 (l - f))
      | _, _ => none }

/--
`computeParticipationMetrics(transcripts, windowSize = 8)`
(server.mjs lines 203-312): a non-array or empty transcript list yields
`null` (the non-array case is outside this typed embedding), otherwise the
snapshot above.
-/
def computeParticipationMetrics (transcripts : List Utterance)
    (windowSize : ℕ) : Option Snapshot :=
  if transcripts.isEmpty then none
  else some (buildSnapshot transcripts windowSize)

/--
`computeDiagnostics` (server.mjs lines 161-189), called only from the
summarization endpoint (line 801): whole-call word counts, shares, and the
underrepresented names with share strictly below `0.1`.
-/
structure DiagnosticsSummary where
  totalWords : ℕ
  totalUtterances : ℕ
  speakerWordShare : List (String × ℚ)
  underrepresented : List String
deriving DecidableEq, Inhabited

def computeDiagnostics (transcripts : List Utterance) : DiagnosticsSummary :=
  let wc := wordCountsOf transcripts
  let T := valuesSum wc
  let wordShare := shareEntries wc T
  { totalWords := T
    totalUtterances := transcripts.length
    speakerWordShare := wordShare
    underrepresented :=
      (wordShare.filter (fun p => p.2 < 1/10)).map (fun p => p.1) }

/--
What the `ParticipationDiagnostics` component derives from the participation
object it is given (App.jsx lines 1527-1566).  The component destructures
`balance = \x7b status: 'balanced', reasons: [] \x7d`, `interruptionCounts = \x7b\x7d`,
`silence = \x7b\x7d` and `turnTakingPerMin` with those defaults; the backend
snapshot (the only producer of `participation`) carries none of these
properties, so on every snapshot the defaults apply: the balance status
renders as `balanced`, the per-speaker interruption list is empty, the
silence-period count is `0`, and total silence, silence ratio and the
turn-taking rate are absent.
-/
structure DiagnosticsView where
  totalInterruptions : ℕ
  interruptionList : List (String × ℕ)
  silenceCount : ℕ
  totalSilenceSec : Option ℚ
  silenceRatio : Option ℚ
  balanceStatus : String
  balanceReasons : List String
  turnTakingPerMin : Option ℚ
deriving DecidableEq, Inhabited

def participationDiagnostics (s : Snapshot) : DiagnosticsView :=
  { totalInterruptions := s.interruptions
    interruptionList := []
    silenceCount := 0
    totalSilenceSec := none
    silenceRatio := none
    balanceStatus := "balanced"
    balanceReasons := []
    turnTakingPerMin := none }

/-! ### Speaker timeline (App.jsx lines 1274-1343) -/

/-- `Math.min` over a non-empty list (`[]` is out of the call's reach). -/
def qListMin : List ℚ → ℚ
  | [] => 0
  | x :: rest => rest.foldl min x

/-- `Math.max` over a non-empty list. -/
def qListMax : List ℚ → ℚ
  | [] => 0
  | x :: rest => rest.foldl max x

/-- The per-utterance end bound used for `totalEnd` (App.jsx lines 1287-1291):
`endSec` when finite, else `startSec + 1` when `startSec` is finite, else 0. -/
def endBound (t : Utterance) : ℚ :=
  match t.endSec with
  | some e => e
  | none =>
    match t.startSec with
    | some s => s + 1
    | none => 0

/-- One rendering-ready timeline span (App.jsx lines 1307-1316). -/
structure Seg where
  startPct : ℚ
  widthPct : ℚ
  hitEndPct : ℚ
  speaker : String
  text : String
deriving DecidableEq, Inhabited

/-- The tooltip excerpt (App.jsx lines 1312-1315). -/
def excerpt (s : String) : String :=
  if 40 < s.length then s.take 40 ++ "..." else s

/-- The segment built for one timed utterance (App.jsx lines 1296-1316):
positions are normalized to percentages of the span; the rendered duration is
raised to a 0.5-second minimum before computing `widthPct`, while `hitEndPct`
uses the raw duration. -/
def segOf (baseStart span : ℚ) (t : Utterance) : Seg :=
  let start := match t.startSec with | some s => s - baseStart | none => 0
  let e :=
    match t.endSec with
    | some e => e - baseStart
    | none => start + 1
  let rawDur := max 0 (e - start)
  let dur := max (1/2) rawDur
  let startPct := start / span * 100
  { startPct := startPct
    widthPct := min 100 (dur / span * 100)
    hitEndPct := min 100 (startPct + rawDur / span * 100)
    speaker := effName t
    text := excerpt t.text }

/--
All segments the `SpeakerTimeline` component produces (App.jsx lines
1277-1317): utterances with a finite `startSec` are kept, the span
`[baseStart, totalEnd]` is computed over them (with a 1-second floor), and one
segment per timed utterance is pushed.  The component groups the segments per
speaker for rendering; the grouping only redistributes the same segment
objects, so this embedding returns them in push order.  With no timed
utterance the component renders nothing.
-/
def speakerTimelineSegments (ts : List Utterance) : List Seg :=
  let timed := ts.filter (fun t => t.startSec.isSome)
  if timed.isEmpty then []
  else
    let baseStart := qListMin (timed.filterMap (fun t => t.startSec))
    let totalEnd := qListMax (timed.map endBound)
    let span := max 1 (totalEnd - baseStart)
    timed.map (segOf baseStart span)

/-- One loop iteration of the frontend `computeWordCounts`
(App.jsx lines 46-52): trimmed-empty texts are skipped. -/
def cwcStep (m : List (String × ℕ)) (t : Utterance) : List (String × ℕ) :=
  let text := t.text.trim
  if text = "" then m else bump m (effName t) (wordCount text)

/-- `computeWordCounts` (App.jsx lines 42-55): the frontend word totals that
feed the pie chart. -/
def computeWordCounts (ts : List Utterance) : List (String × ℕ) :=
  ts.foldl cwcStep []

/-- Erase every timing field of every utterance. -/
def eraseTimes (ts : List Utterance) : List Utterance :=
  ts.map (fun t =>
    { t with createdAt := none, wordsStartSec := none,
             startSec := none, endSec := none })

/-! ### Bot state endpoint (server.mjs lines 562-570) -/

/-- The slice of a bot-state entry relevant to the `/api/bots/:id/state`
handler: the transcript log and the cached `participation` property.  A fresh
entry (server.mjs lines 58-75) has no `participation` property. -/
structure BotState where
  transcripts : List Utterance
  participation : Option Snapshot
deriving DecidableEq, Inhabited

/-- The `GET /api/bots/:id/state` handler body (server.mjs lines 562-570):
recompute the metrics and attach them to the bot object only when non-null,
then respond with the bot object. -/
def getBotStateResponse (bot : BotState) : BotState :=
  match computeParticipationMetrics bot.transcripts 8 with
  | some p => { bot with participation := some p }
  | none => bot

/-! ### Spec-side definitions and concrete logs used by the claims -/

/-- An utterance with only `startSec`/`endSec` timing, the shape of the
spec's scenarios. -/
def mkUtt (n txt : String) (s e : Option ℚ) : Utterance :=
  { speakerName := n, text := txt, createdAt := none, wordsStartSec := none,
    startSec := s, endSec := e }

/-- The dominant-speaker selection rule as the spec words it: the first
speaker, in insertion order into the per-speaker counts, among the set tied
for the maximum word count. -/
def specFirstMaxSpeaker (wc : List (String × ℕ)) : Option String :=
  (wc.find? (fun p => wc.all (fun q => decide (q.2 ≤ p.2)))).map (fun p => p.1)

/-- An utterance whose `endSec`, when present together with `startSec`, does
not precede it. -/
def wellTimed (t : Utterance) : Bool :=
  match t.startSec, t.endSec with
  | some sv, some ev => decide (sv ≤ ev)
  | _, _ => true

/-- The sum of the values of a share object. -/
def shareSum (shares : List (String × ℚ)) : ℚ :=
  (shares.map (fun p => p.2)).sum

/-- C1 input: in the recent window Alice holds 7 of 8 words (share 0.875,
above the 0.6 alert threshold) while Bob is active with a positive share. -/
def c1log : List Utterance :=
  [mkUtt "Alice" "a b c d e f g" (some 0) (some 1),
   mkUtt "Bob" "x" (some 2) (some 3)]

/-- C2 input: the spec's Scenario B — Alice speaks during seconds 0-1, Bob
during seconds 21-22. -/
def c2log : List Utterance :=
  [mkUtt "Alice" "a" (some 0) (some 1),
   mkUtt "Bob" "b" (some 21) (some 22)]

/-- C3 input: Alice ends at second 5, Bob starts half a second later, an
end-to-start gap of 0.5 s inside the claimed `[0, 1.5]` interruption window
(while the start-to-start gap is 5.5 s). -/
def c3log : List Utterance :=
  [mkUtt "Alice" "hi there" (some 0) (some 5),
   mkUtt "Bob" "yo" (some (11/2)) (some 6)]

/-- C4 input: one utterance with no timing information at all. -/
def c4log : List Utterance :=
  [mkUtt "Alice" "hello world" none none]

/-- C5 counterexample input: one utterance whose text tokenizes to zero
words, so the total word count is zero. -/
def c5log : List Utterance :=
  [mkUtt "Alice" "" none none]

/-- C5 witness input: the spec's Scenario A. -/
def c5logA : List Utterance :=
  [mkUtt "Alice" "hello there" (some 0) (some 1),
   mkUtt "Bob" "hi Alice how are you" (some (6/5)) (some 3)]

/-- C6 counterexample input: a single speaker with zero words is the unique
maximum-word speaker, yet the scan never leaves its `null` start value. -/
def c6log : List Utterance :=
  [mkUtt "Alice" "" none none]

/-- C6 witness input: Bob uniquely holds the word-count maximum. -/
def c6logA : List Utterance :=
  [mkUtt "Alice" "hello there" (some 0) (some 1),
   mkUtt "Bob" "hi Alice how are you" (some (6/5)) (some 3)]

/-- C8 counterexample input: the second utterance has `endSec` before
`startSec`, which drags `totalEnd` (20) below that utterance's start (50). -/
def c8bad : List Utterance :=
  [mkUtt "A" "a" (some 0) (some 1),
   mkUtt "B" "b" (some 50) (some 20)]

/-- C8 witness input: well-formed timing. -/
def c8good : List Utterance :=
  [mkUtt "A" "one two" (some 0) (some 10),
   mkUtt "B" "three" (some 4) none]

/-- C10 witness input: a fresh bot-state entry. -/
def freshBot : BotState :=
  { transcripts := [], participation := none }

/-!
## Claim theorems
-/

/--
C1: on `c1log` the recent-window dominant share is 7/8, strictly above the
0.6 alert threshold, and another speaker (Bob) holds a positive share — the
situation in which the claimed Balance Classifier must report
`needs_attention` with a naming reason.  The snapshot the backend produces
carries no balance field, and the frontend `ParticipationDiagnostics`
therefore renders the destructuring default: status `balanced` with no
reasons.  No balance classifier exists in the code.
-/
theorem c1_balance_always_balanced :
    (computeParticipationMetrics c1log 8).map
        (fun s => (s.window.dominantShare, s.speakingShare,
                   (participationDiagnostics s).balanceStatus,
                   (participationDiagnostics s).balanceReasons)) =
      some (7/8, [("Alice", 7/8), ("Bob", 1/8)], "balanced", []) ∧
    (3/5 : ℚ) < 7/8 := by
  constructor
  · with_unfolding_all decide
  · norm_num

/--
C2: on the spec's Scenario B (`c2log`) the code records `longestSilence` as
the start-to-start gap of 21 seconds (not the claimed end-to-start 20), with
no `silenceMinSec` threshold applied, and the consumer-visible silence-period
list, total and ratio are absent (count 0, totals `none`): the SilencePeriod
machinery the claim describes is not produced by the code.
-/
theorem c2_silence_scenarioB_eval :
    (computeParticipationMetrics c2log 8).map
        (fun s => (s.longestSilence, s.interruptions,
                   (participationDiagnostics s).silenceCount,
                   (participationDiagnostics s).totalSilenceSec)) =
      some ({ durationSec := 21, fromSec := some 0, toSec := some 21 },
            0, 0, none) := by
  with_unfolding_all decide

/--
C3: on `c3log` the end-to-start gap is 0.5 s, inside the claimed `[0, 1.5]`
interruption window, yet the code counts zero interruptions — it measures the
gap between consecutive selected timestamps (start times here) and never
reads `endSec` — and the consumer-visible per-speaker interruption breakdown
is empty: no per-speaker attribution exists in the code.
-/
theorem c3_interruption_eval :
    (computeParticipationMetrics c3log 8).map
        (fun s => (s.interruptions, s.transitions,
                   (participationDiagnostics s).interruptionList)) =
      some (0, 1, []) ∧
    (0 ≤ (11/2 : ℚ) - 5 ∧ (11/2 : ℚ) - 5 ≤ 3/2) := by
  constructor
  · with_unfolding_all decide
  · norm_num

/--
C9: the participation snapshot is a pure function of the transcript list and
the window size — the source reads no clock and no ambient state in
`computeParticipationMetrics` — so recomputing it from an unchanged log
yields identical results.
-/
theorem c9_snapshot_deterministic (ts : List Utterance) (w : ℕ) :
    computeParticipationMetrics ts w = computeParticipationMetrics ts w :=
  rfl

/--
C5 counterexample: on `c5log` the total word count is zero, yet
`speakingShare` is not empty — it carries the entry `("Alice", 0)`, because
`wordCounts[name] = (wordCounts[name] || 0) + words` creates the key even for
a zero word count.  The claim says `speakingShare` has no entries at all when
the total is zero.
-/
theorem c5_zero_words_share_counterexample :
    (computeParticipationMetrics c5log 8).map
        (fun s => (s.totalWords, s.speakingShare)) =
      some (0, [("Alice", 0)]) := by
  with_unfolding_all decide

/--
C6 counterexample: on `c6log` the only speaker, Alice, is the unique
maximum-word speaker (with zero words), but `dominantSpeaker` stays `null`:
the scan starts from share 0 and only a strictly greater share replaces it.
The claim says `dominantSpeaker` equals the unique maximum-word speaker.
-/
theorem c6_dominant_counterexample :
    (computeParticipationMetrics c6log 8).map
        (fun s => (s.dominantSpeaker, s.speakingShare)) =
      some (none, [("Alice", 0)]) := by
  with_unfolding_all decide

/--
C8 counterexample: on `c8bad` (second utterance with `endSec` 20 before
`startSec` 50) the produced segments have `startPct` values `[0, 250]`, and
250 is not within `[0, 100]` as the claim requires of every segment.
-/
theorem c8_timeline_counterexample :
    ((speakerTimelineSegments c8bad).map Seg.startPct) = [0, 250] ∧
    ¬ ((250 : ℚ) ≤ 100) := by
  constructor
  · with_unfolding_all decide
  · norm_num

/--
C10: an empty transcript list makes `computeParticipationMetrics` return
`null` rather than an empty snapshot, and the state handler then leaves the
(absent) `participation` property of the bot state untouched, so the response
for a fresh session carries no participation object.
-/
theorem c10_empty_log_null (bot : BotState)
    (h1 : bot.transcripts = []) (h2 : bot.participation = none) :
    computeParticipationMetrics bot.transcripts 8 = none ∧
    (getBotStateResponse bot).participation = none := by
  have hc : computeParticipationMetrics bot.transcripts 8 = none := by
    rw [h1]; rfl
  refine ⟨hc, ?_⟩
  unfold getBotStateResponse
  rw [hc]
  exact h2

/-- C10 witness: the theorem applied to a fresh bot-state entry. -/
theorem c10_empty_log_null_witness :
    computeParticipationMetrics freshBot.transcripts 8 = none ∧
    (getBotStateResponse freshBot).participation = none :=
  c10_empty_log_null freshBot rfl rfl

lemma bump_ne_nil (m : List (String × ℕ)) (k : String) (v : ℕ) :
    bump m k v ≠ [] := by
  cases m with
  | nil => simp [bump]
  | cons p rest =>
    simp only [bump]
    split <;> simp

lemma foldl_wcStep_ne_nil (l : List Utterance) :
    ∀ m : List (String × ℕ), m ≠ [] → l.foldl wcStep m ≠ [] := by
  induction l with
  | nil => intro m hm; simpa using hm
  | cons t l ih =>
    intro m _
    rw [List.foldl_cons]
    exact ih (wcStep m t) (bump_ne_nil m (effName t) (wordCount t.text))

lemma wordCountsOf_ne_nil (ts : List Utterance) (h : ts ≠ []) :
    wordCountsOf ts ≠ [] := by
  cases ts with
  | nil => exact absurd rfl h
  | cons t l =>
    unfold wordCountsOf
    rw [List.foldl_cons]
    exact foldl_wcStep_ne_nil l (wcStep [] t)
      (bump_ne_nil [] (effName t) (wordCount t.text))

lemma loopStep_no_time (st : LoopState) (t : Utterance)
    (h : timeOf t = none) (hp : st.prevTime = none) :
    (loopStep st t).interruptions = st.interruptions ∧
    (loopStep st t).firstTime = st.firstTime ∧
    (loopStep st t).lastTime = st.lastTime ∧
    (loopStep st t).prevTime = none := by
  simp only [loopStep, h, hp]
  cases st.prevSpeaker with
  | none => simp
  | some p =>
    by_cases hpc : p ≠ effName t
    · simp [hpc]
    · simp [hpc]

lemma loopOf_no_time_aux (l : List Utterance) :
    (∀ t ∈ l, timeOf t = none) → ∀ st : LoopState, st.prevTime = none →
      (l.foldl loopStep st).interruptions = st.interruptions ∧
      (l.foldl loopStep st).firstTime = st.firstTime ∧
      (l.foldl loopStep st).lastTime = st.lastTime ∧
      (l.foldl loopStep st).prevTime = none := by
  induction l with
  | nil => intro _ st hst; exact ⟨rfl, rfl, rfl, hst⟩
  | cons t l ih =>
    intro hl st hst
    rw [List.foldl_cons]
    have hs := loopStep_no_time st t (hl t (List.mem_cons_self _ _)) hst
    have ihr := ih (fun x hx => hl x (List.mem_cons_of_mem _ hx))
      (loopStep st t) hs.2.2.2
    exact ⟨ihr.1.trans hs.1, ihr.2.1.trans hs.2.1,
           ihr.2.2.1.trans hs.2.2.1, ihr.2.2.2⟩

lemma loopOf_no_time (ts : List Utterance) (hnt : ∀ t ∈ ts, timeOf t = none) :
    (loopOf ts).interruptions = 0 ∧ (loopOf ts).firstTime = none ∧
    (loopOf ts).lastTime = none := by
  have h := loopOf_no_time_aux ts hnt loopInit rfl
  exact ⟨h.1, h.2.1, h.2.2.1⟩

/--
C4: on a non-empty log where no utterance yields a usable timestamp, the
snapshot has `durationSec = null` and zero interruptions, the consumer-facing
turn-taking rate and silence-period set read as absent and empty, and
`speakingShare` is still non-empty.  (The turn-taking-rate and silence
fields are in fact absent from the snapshot for every input, because the
backend never produces them; see the C2 analysis.)
-/
theorem c4_no_timestamp_degradation (ts : List Utterance) (w : ℕ)
    (hne : ts ≠ []) (hnt : ∀ t ∈ ts, timeOf t = none) :
    (computeParticipationMetrics ts w).isSome = true ∧
    ((computeParticipationMetrics ts w).getD default).durationSec = none ∧
    ((computeParticipationMetrics ts w).getD default).interruptions = 0 ∧
    (participationDiagnostics
        ((computeParticipationMetrics ts w).getD default)).turnTakingPerMin
      = none ∧
    (participationDiagnostics
        ((computeParticipationMetrics ts w).getD default)).silenceCount = 0 ∧
    ((computeParticipationMetrics ts w).getD default).speakingShare ≠ [] := by
  have hemp : ts.isEmpty = false := by
    cases ts with
    | nil => exact absurd rfl hne
    | cons t l => rfl
  obtain ⟨hint, hfirst, hlast⟩ := loopOf_no_time ts hnt
  simp only [computeParticipationMetrics, buildSnapshot, hemp,
    Bool.false_eq_true, if_false, Option.isSome_some, Option.getD_some,
    participationDiagnostics, hint, hfirst, hlast]
  refine ⟨trivial, trivial, trivial, trivial, trivial, ?_⟩
  intro hsh
  exact wordCountsOf_ne_nil ts hne (List.map_eq_nil_iff.mp hsh)

/-- C4 witness: the theorem applied to the one-utterance untimed log. -/
theorem c4_no_timestamp_degradation_witness :
    (computeParticipationMetrics c4log 8).isSome = true ∧
    ((computeParticipationMetrics c4log 8).getD default).durationSec = none ∧
    ((computeParticipationMetrics c4log 8).getD default).interruptions = 0 ∧
    (participationDiagnostics
        ((computeParticipationMetrics c4log 8).getD default)).turnTakingPerMin
      = none ∧
    (participationDiagnostics
        ((computeParticipationMetrics c4log 8).getD default)).silenceCount = 0 ∧
    ((computeParticipationMetrics c4log 8).getD default).speakingShare ≠ [] :=
  c4_no_timestamp_degradation c4log 8 (by decide) (by decide)

lemma compute_eq_build (ts : List Utterance) (w : ℕ) (s : Snapshot)
    (h : computeParticipationMetrics ts w = some s) : s = buildSnapshot ts w ∧ ts ≠ [] := by
  cases hts : ts with
  | nil =>
    rw [hts] at h
    simp [computeParticipationMetrics] at h
  | cons t l =>
    rw [hts] at h
    simp only [computeParticipationMetrics, List.isEmpty_cons,
      Bool.false_eq_true, if_false, Option.some.injEq] at h
    exact ⟨h.symm, by simp⟩

lemma shareSum_shareEntries (wc : List (String × ℕ)) (T : ℕ) (hT : 0 < T) :
    shareSum (shareEntries wc T) = (valuesSum wc : ℚ) / T := by
  induction wc with
  | nil => simp [shareSum, shareEntries, valuesSum]
  | cons p l ih =>
    simp only [shareSum, shareEntries, List.map_cons, List.sum_cons,
      valuesSum, if_pos hT] at ih ⊢
    rw [ih]
    push_cast
    rw [div_add_div_same]

/--
C5 (amended): whenever the snapshot's total word count is positive, the
values of `speakingShare` sum to exactly 1; when the total word count is
zero, every entry of `speakingShare` carries the share 0 (the entries
themselves remain, one per encountered speaker — see the counterexample).
-/
theorem c5_share_sum_amended (ts : List Utterance) (w : ℕ) (s : Snapshot)
    (h : computeParticipationMetrics ts w = some s) :
    (0 < s.totalWords → shareSum s.speakingShare = 1) ∧
    (s.totalWords = 0 → ∀ p ∈ s.speakingShare, p.2 = 0) := by
  obtain ⟨rfl, -⟩ := compute_eq_build ts w s h
  constructor
  · intro hT
    have hT' : 0 < valuesSum (wordCountsOf ts) := hT
    have hsum := shareSum_shareEntries (wordCountsOf ts) _ hT'
    show shareSum (shareEntries (wordCountsOf ts) (valuesSum (wordCountsOf ts))) = 1
    rw [hsum, div_self]
    exact_mod_cast hT'.ne'
  · intro hT0
    have hT0' : valuesSum (wordCountsOf ts) = 0 := hT0
    intro p hp
    have hp' : p ∈ shareEntries (wordCountsOf ts) (valuesSum (wordCountsOf ts)) := hp
    rw [shareEntries, hT0'] at hp'
    simp only [List.mem_map] at hp'
    obtain ⟨q, -, rfl⟩ := hp'
    simp

/-- C5 witness: the amended theorem applied to the spec's Scenario A log,
whose total word count is 7. -/
theorem c5_share_sum_amended_witness :
    shareSum (((computeParticipationMetrics c5logA 8).getD
        default).speakingShare) = 1 :=
  (c5_share_sum_amended c5logA 8
      ((computeParticipationMetrics c5logA 8).getD default)
      (by with_unfolding_all rfl)).1
    (by with_unfolding_all decide)


lemma find_congr {α : Type} (l : List α) (f g : α → Bool)
    (h : ∀ x ∈ l, f x = g x) : l.find? f = l.find? g := by
  induction l with
  | nil => rfl
  | cons a l ih =>
    have ha := h a (List.mem_cons_self _ _)
    by_cases hfa : f a = true
    · rw [List.find?_cons_of_pos _ hfa, List.find?_cons_of_pos _ (ha ▸ hfa)]
    · have hga : ¬ g a = true := by rw [← ha]; exact hfa
      rw [List.find?_cons_of_neg _ hfa, List.find?_cons_of_neg _ hga]
      exact ih (fun x hx => h x (List.mem_cons_of_mem _ hx))

lemma exists_max_val (l : List (String × ℚ)) (h : l ≠ []) :
    ∃ m ∈ l, ∀ x ∈ l, x.2 ≤ m.2 := by
  induction l with
  | nil => exact absurd rfl h
  | cons a l ih =>
    cases l with
    | nil =>
      refine ⟨a, List.mem_cons_self _ _, ?_⟩
      intro x hx
      rw [List.mem_singleton] at hx
      rw [hx]
    | cons b t =>
      obtain ⟨m, hm, hmax⟩ := ih (by simp)
      by_cases hc : a.2 ≤ m.2
      · refine ⟨m, List.mem_cons_of_mem _ hm, ?_⟩
        intro x hx
        rcases List.mem_cons.mp hx with hx | hx
        · rw [hx]; exact hc
        · exact hmax x hx
      · refine ⟨a, List.mem_cons_self _ _, ?_⟩
        intro x hx
        rcases List.mem_cons.mp hx with hx | hx
        · rw [hx]
        · exact le_trans (hmax x hx) (le_of_lt (not_le.mp hc))

/--
Characterization of the strict-improvement scan: starting from the pair
`(d, b)`, the fold of `domStep` lands on the first entry whose value both
exceeds the start bound `b` and is maximal in the list, and keeps `(d, b)`
when no entry exceeds `b`.
-/
lemma domFold_characterization (l : List (String × ℚ)) :
    ∀ (d : Option String) (b : ℚ),
      l.foldl domStep (d, b) =
        (match l.find? (fun p => decide (b < p.2) &&
              l.all (fun q => decide (q.2 ≤ p.2))) with
         | some p => (some p.1, p.2)
         | none => (d, b)) := by
  induction l with
  | nil => intro d b; rfl
  | cons p l ih =>
    intro d b
    rw [List.foldl_cons]
    by_cases hb : b < p.2
    · have hstep : domStep (d, b) p = (some p.1, p.2) := by
        simp [domStep, hb]
      rw [hstep, ih]
      cases hmax : l.all (fun q => decide (q.2 ≤ p.2)) with
      | true =>
        have hP : (fun x => decide (b < x.2) &&
            (p :: l).all (fun q => decide (q.2 ≤ x.2))) p = true := by
          simp only [List.all_cons, Bool.and_eq_true, decide_eq_true_eq]
          exact ⟨hb, le_refl _, hmax⟩
        rw [@List.find?_cons_of_pos _
          (fun x => decide (b < x.2) &&
            (p :: l).all (fun q => decide (q.2 ≤ x.2))) p l hP]
        have hnone : l.find? (fun r => decide (p.2 < r.2) &&
            l.all (fun q => decide (q.2 ≤ r.2))) = none := by
          apply List.find?_eq_none.mpr
          intro x hx
          have hxle : x.2 ≤ p.2 := by
            have := List.all_eq_true.mp hmax x hx
            simpa using this
          simp only [Bool.and_eq_true, decide_eq_true_eq, not_and]
          intro hlt
          exact absurd hxle (not_le.mpr hlt)
        rw [hnone]
      | false =>
        have hwit : ∃ r ∈ l, p.2 < r.2 := by
          obtain ⟨r, hr, hrn⟩ := List.all_eq_false.mp hmax
          exact ⟨r, hr, by simpa using hrn⟩
        have hPfalse : ¬ ((fun x => decide (b < x.2) &&
            (p :: l).all (fun q => decide (q.2 ≤ x.2))) p = true) := by
          simp only [List.all_cons, Bool.and_eq_true, decide_eq_true_eq]
          intro hcontra
          rw [hmax] at hcontra
          exact Bool.false_ne_true hcontra.2.2
        rw [@List.find?_cons_of_neg _
          (fun x => decide (b < x.2) &&
            (p :: l).all (fun q => decide (q.2 ≤ x.2))) p l hPfalse]
        have hcong : l.find? (fun r => decide (b < r.2) &&
              (p :: l).all (fun q => decide (q.2 ≤ r.2)))
            = l.find? (fun r => decide (p.2 < r.2) &&
              l.all (fun q => decide (q.2 ≤ r.2))) := by
          apply find_congr
          intro x hx
          cases hxmax : l.all (fun q => decide (q.2 ≤ x.2)) with
          | true =>
            obtain ⟨r0, hr0, hr0gt⟩ := hwit
            have hx1 : p.2 < x.2 := by
              have hr0x : x.2 ≥ r0.2 := by
                have := List.all_eq_true.mp hxmax r0 hr0
                simpa using this
              exact lt_of_lt_of_le hr0gt hr0x
            have hx2 : b < x.2 := lt_trans hb hx1
            simp [List.all_cons, hxmax, hx1, hx2, le_of_lt hx1]
          | false => simp [List.all_cons, hxmax]
        rw [hcong]
        have hsome : ∃ r, l.find? (fun r => decide (p.2 < r.2) &&
            l.all (fun q => decide (q.2 ≤ r.2))) = some r := by
          obtain ⟨r0, hr0, hr0gt⟩ := hwit
          have hlne : l ≠ [] := by
            intro hnil
            rw [hnil] at hr0
            exact absurd hr0 (List.not_mem_nil r0)
          obtain ⟨m, hm, hmmax⟩ := exists_max_val l hlne
          have hpred : (fun r => decide (p.2 < r.2) &&
              l.all (fun q => decide (q.2 ≤ r.2))) m = true := by
            simp only [Bool.and_eq_true, decide_eq_true_eq]
            refine ⟨lt_of_lt_of_le hr0gt (hmmax r0 hr0), ?_⟩
            rw [List.all_eq_true]
            intro q hq
            simpa using hmmax q hq
          exact Option.isSome_iff_exists.mp (List.find?_isSome.mpr ⟨m, hm, hpred⟩)
        obtain ⟨r, hr⟩ := hsome
        rw [hr]
    · have hstep : domStep (d, b) p = (d, b) := by
        simp [domStep, hb]
      rw [hstep, ih]
      have hPfalse : ¬ ((fun x => decide (b < x.2) &&
          (p :: l).all (fun q => decide (q.2 ≤ x.2))) p = true) := by
        simp only [List.all_cons, Bool.and_eq_true, decide_eq_true_eq]
        intro hcontra
        exact hb hcontra.1
      rw [@List.find?_cons_of_neg _
        (fun x => decide (b < x.2) &&
          (p :: l).all (fun q => decide (q.2 ≤ x.2))) p l hPfalse]
      have hcong : l.find? (fun r => decide (b < r.2) &&
            (p :: l).all (fun q => decide (q.2 ≤ r.2)))
          = l.find? (fun r => decide (b < r.2) &&
            l.all (fun q => decide (q.2 ≤ r.2))) := by
        apply find_congr
        intro x hx
        by_cases hbx : b < x.2
        · have hpx : p.2 ≤ x.2 := le_trans (not_lt.mp hb) (le_of_lt hbx)
          simp [List.all_cons, hbx, hpx]
        · simp [hbx]
      rw [hcong]


lemma all_map_general {α β : Type} (l : List α) (f : α → β) (p : β → Bool) :
    (l.map f).all p = l.all (p ∘ f) := by
  induction l with
  | nil => rfl
  | cons a l ih => simp [List.all_cons, ih, Function.comp_apply]

lemma all_congr {α : Type} (l : List α) (f g : α → Bool)
    (h : ∀ x ∈ l, f x = g x) : l.all f = l.all g := by
  induction l with
  | nil => rfl
  | cons a l ih =>
    simp only [List.all_cons, h a (List.mem_cons_self _ _),
      ih (fun x hx => h x (List.mem_cons_of_mem _ hx))]

lemma sum_pos_exists (wc : List (String × ℕ)) (h : 0 < valuesSum wc) :
    ∃ x ∈ wc, 0 < x.2 := by
  induction wc with
  | nil => simp [valuesSum] at h
  | cons p l ih =>
    by_cases hp : 0 < p.2
    · exact ⟨p, List.mem_cons_self _ _, hp⟩
    · have hp0 : p.2 = 0 := Nat.eq_zero_of_not_pos hp
      have hl : 0 < valuesSum l := by
        simpa [valuesSum, hp0] using h
      obtain ⟨x, hx, hxpos⟩ := ih hl
      exact ⟨x, List.mem_cons_of_mem _ hx, hxpos⟩

/--
With a positive total word count, the dominant-speaker scan over the share
entries picks exactly the first maximal-count speaker in insertion order.
-/
lemma domOf_shares_eq_spec (wc : List (String × ℕ))
    (hT : 0 < valuesSum wc) :
    (domOf (shareEntries wc (valuesSum wc))).1 = specFirstMaxSpeaker wc := by
  have hTQ : (0 : ℚ) < (valuesSum wc : ℚ) := by exact_mod_cast hT
  have hshares : shareEntries wc (valuesSum wc)
      = wc.map (fun p => (p.1, (p.2 : ℚ) / (valuesSum wc : ℚ))) := by
    simp [shareEntries, hT]
  unfold domOf
  rw [hshares, domFold_characterization, List.find?_map]
  have hstepA : wc.find?
      ((fun p => decide ((0:ℚ) < p.2) &&
          (wc.map (fun p => (p.1, (p.2 : ℚ) / (valuesSum wc : ℚ)))).all
            (fun q => decide (q.2 ≤ p.2))) ∘
        (fun p => (p.1, (p.2 : ℚ) / (valuesSum wc : ℚ))))
      = wc.find? (fun x => decide (0 < x.2) &&
          wc.all (fun q => decide (q.2 ≤ x.2))) := by
    apply find_congr
    intro x _
    simp only [Function.comp_apply]
    congr 1
    · apply decide_eq_decide.mpr
      rw [lt_div_iff₀ hTQ, zero_mul]
      exact Nat.cast_pos
    · rw [all_map_general]
      apply all_congr
      intro q _
      simp only [Function.comp_apply]
      apply decide_eq_decide.mpr
      rw [div_le_div_iff_of_pos_right hTQ]
      exact Nat.cast_le
  rw [hstepA]
  obtain ⟨x0, hx0, hx0pos⟩ := sum_pos_exists wc hT
  have hstepB : wc.find? (fun x => decide (0 < x.2) &&
        wc.all (fun q => decide (q.2 ≤ x.2)))
      = wc.find? (fun x => wc.all (fun q => decide (q.2 ≤ x.2))) := by
    apply find_congr
    intro x hx
    cases hall : wc.all (fun q => decide (q.2 ≤ x.2)) with
    | true =>
      have hxpos : 0 < x.2 := by
        have hle : x0.2 ≤ x.2 := by
          have := List.all_eq_true.mp hall x0 hx0
          simpa using this
        exact lt_of_lt_of_le hx0pos hle
      simp [hxpos]
    | false => simp
  rw [hstepB]
  cases hfind : wc.find? (fun x => wc.all (fun q => decide (q.2 ≤ x.2))) with
  | none => simp [specFirstMaxSpeaker, hfind]
  | some r => simp [specFirstMaxSpeaker, hfind]

/-- With a zero total word count, every share is the literal 0 and the scan
never moves off its `null` start value. -/
lemma domOf_shares_zero (wc : List (String × ℕ))
    (hT : valuesSum wc = 0) :
    (domOf (shareEntries wc (valuesSum wc))).1 = none := by
  unfold domOf
  rw [domFold_characterization]
  have hnone : (shareEntries wc (valuesSum wc)).find?
      (fun p => decide ((0:ℚ) < p.2) &&
        (shareEntries wc (valuesSum wc)).all
          (fun q => decide (q.2 ≤ p.2))) = none := by
    apply List.find?_eq_none.mpr
    intro x hx
    have hx2 : x.2 = 0 := by
      rw [shareEntries, hT] at hx
      simp only [List.mem_map] at hx
      obtain ⟨q, -, rfl⟩ := hx
      simp
    simp [hx2]
  rw [hnone]

/--
C6 (amended): with a positive total word count, `dominantSpeaker` is the
first speaker, in insertion order into the per-speaker counts, among the set
tied for the maximum word count (hence the unique maximum speaker when the
maximum is unique); with a zero total word count, `dominantSpeaker` is `null`
(see the counterexample).
-/
theorem c6_dominant_amended (ts : List Utterance) (w : ℕ) (s : Snapshot)
    (h : computeParticipationMetrics ts w = some s) :
    (0 < s.totalWords →
      s.dominantSpeaker = specFirstMaxSpeaker (wordCountsOf ts)) ∧
    (s.totalWords = 0 → s.dominantSpeaker = none) := by
  obtain ⟨rfl, -⟩ := compute_eq_build ts w s h
  exact ⟨fun hT => domOf_shares_eq_spec (wordCountsOf ts) hT,
         fun hT0 => by
           have : valuesSum (wordCountsOf ts) = 0 := hT0
           exact domOf_shares_zero (wordCountsOf ts) this⟩

/-- C6 witness: the amended theorem applied to the Scenario A log, where Bob
uniquely holds the maximum word count. -/
theorem c6_dominant_amended_witness :
    ((computeParticipationMetrics c6logA 8).getD default).dominantSpeaker =
      specFirstMaxSpeaker (wordCountsOf c6logA) :=
  (c6_dominant_amended c6logA 8
      ((computeParticipationMetrics c6logA 8).getD default)
      (by with_unfolding_all rfl)).1
    (by with_unfolding_all decide)


lemma foldl_min_le_init (l : List ℚ) : ∀ a : ℚ, l.foldl min a ≤ a := by
  induction l with
  | nil => intro a; simp
  | cons b t ih =>
    intro a
    rw [List.foldl_cons]
    exact le_trans (ih (min a b)) (min_le_left a b)

lemma foldl_min_le_mem (l : List ℚ) :
    ∀ (a x : ℚ), x ∈ l → l.foldl min a ≤ x := by
  induction l with
  | nil => intro a x hx; exact absurd hx (List.not_mem_nil x)
  | cons b t ih =>
    intro a x hx
    rw [List.foldl_cons]
    rcases List.mem_cons.mp hx with hx | hx
    · rw [hx]
      exact le_trans (foldl_min_le_init t (min a b)) (min_le_right a b)
    · exact ih (min a b) x hx

lemma qListMin_le (l : List ℚ) (x : ℚ) (h : x ∈ l) : qListMin l ≤ x := by
  cases l with
  | nil => exact absurd h (List.not_mem_nil x)
  | cons a t =>
    rcases List.mem_cons.mp h with hx | hx
    · rw [hx]
      exact foldl_min_le_init t a
    · exact foldl_min_le_mem t a x hx

lemma init_le_foldl_max (l : List ℚ) : ∀ a : ℚ, a ≤ l.foldl max a := by
  induction l with
  | nil => intro a; simp
  | cons b t ih =>
    intro a
    rw [List.foldl_cons]
    exact le_trans (le_max_left a b) (ih (max a b))

lemma mem_le_foldl_max (l : List ℚ) :
    ∀ (a x : ℚ), x ∈ l → x ≤ l.foldl max a := by
  induction l with
  | nil => intro a x hx; exact absurd hx (List.not_mem_nil x)
  | cons b t ih =>
    intro a x hx
    rw [List.foldl_cons]
    rcases List.mem_cons.mp hx with hx | hx
    · rw [hx]
      exact le_trans (le_max_right a b) (init_le_foldl_max t (max a b))
    · exact ih (max a b) x hx

lemma le_qListMax (l : List ℚ) (x : ℚ) (h : x ∈ l) : x ≤ qListMax l := by
  cases l with
  | nil => exact absurd h (List.not_mem_nil x)
  | cons a t =>
    rcases List.mem_cons.mp h with hx | hx
    · rw [hx]
      exact init_le_foldl_max t a
    · exact mem_le_foldl_max t a x hx

lemma cwcStep_eraseTime (m : List (String × ℕ)) (t : Utterance) :
    cwcStep m { t with createdAt := none, wordsStartSec := none,
                       startSec := none, endSec := none } = cwcStep m t := by
  cases t
  rfl

/--
C8 (amended): over any log in which every utterance carrying both `startSec`
and `endSec` has `endSec ≥ startSec`, every produced timeline segment has
`startPct` and `widthPct` within `[0, 100]`; and the frontend word-count
totals are computed from speaker names and texts alone, so the rendering-only
0.5-second widening cannot feed back into them (erasing every timing field
leaves `computeWordCounts` unchanged).  Without the well-formedness
hypothesis `startPct` can exceed 100 (see the counterexample).
-/
theorem c8_timeline_amended (ts : List Utterance)
    (hw : ∀ t ∈ ts, wellTimed t = true) :
    (∀ g ∈ speakerTimelineSegments ts,
        0 ≤ g.startPct ∧ g.startPct ≤ 100 ∧
        0 ≤ g.widthPct ∧ g.widthPct ≤ 100) ∧
    computeWordCounts (eraseTimes ts) = computeWordCounts ts := by
  constructor
  · intro g hg
    unfold speakerTimelineSegments at hg
    by_cases hemp : (ts.filter (fun t => t.startSec.isSome)).isEmpty
    · rw [if_pos hemp] at hg
      exact absurd hg (List.not_mem_nil g)
    · rw [if_neg hemp] at hg
      obtain ⟨t, ht, rfl⟩ := List.mem_map.mp hg
      obtain ⟨hts, hsome⟩ := List.mem_filter.mp ht
      obtain ⟨sv, hsv⟩ := Option.isSome_iff_exists.mp hsome
      set timed := ts.filter (fun t => t.startSec.isSome) with htimed
      set baseStart := qListMin (timed.filterMap (fun t => t.startSec))
        with hbase
      set totalEnd := qListMax (timed.map endBound) with htot
      set span := max 1 (totalEnd - baseStart) with hspan
      have hspanpos : (0 : ℚ) < span := by
        rw [hspan]
        exact lt_of_lt_of_le one_pos (le_max_left _ _)
      have hble : baseStart ≤ sv := by
        apply qListMin_le
        exact List.mem_filterMap.mpr ⟨t, ht, hsv⟩
      have hsle : sv ≤ totalEnd := by
        have hend : sv ≤ endBound t := by
          unfold endBound
          cases hev : t.endSec with
          | some ev =>
            have hwt := hw t hts
            rw [wellTimed, hsv, hev] at hwt
            simpa using hwt
          | none =>
            simp only [hev, hsv]
            linarith
        exact le_trans hend (le_qListMax _ _ (List.mem_map_of_mem endBound ht))
      have hstartle : sv - baseStart ≤ span := by
        rw [hspan]
        exact le_trans (by linarith : sv - baseStart ≤ totalEnd - baseStart)
          (le_max_right _ _)
      have hstartnn : 0 ≤ sv - baseStart := by linarith
      simp only [segOf, hsv]
      refine ⟨?_, ?_, ?_, ?_⟩
      · exact mul_nonneg (div_nonneg hstartnn (le_of_lt hspanpos)) (by norm_num)
      · calc (sv - baseStart) / span * 100
            ≤ 1 * 100 := by
              apply mul_le_mul_of_nonneg_right _ (by norm_num)
              exact (div_le_one hspanpos).mpr hstartle
          _ = 100 := one_mul 100
      · apply le_min (by norm_num)
        apply mul_nonneg _ (by norm_num)
        apply div_nonneg _ (le_of_lt hspanpos)
        exact le_trans (by norm_num) (le_max_left (1/2 : ℚ) _)
      · exact min_le_left _ _
  · unfold computeWordCounts eraseTimes
    rw [List.foldl_map]
    congr 1


/-- C8 witness: the amended theorem applied to a well-formed log and the
first produced segment. -/
theorem c8_timeline_amended_witness :
    (0 ≤ ((speakerTimelineSegments c8good).headI).startPct ∧
      ((speakerTimelineSegments c8good).headI).startPct ≤ 100 ∧
      0 ≤ ((speakerTimelineSegments c8good).headI).widthPct ∧
      ((speakerTimelineSegments c8good).headI).widthPct ≤ 100) ∧
    computeWordCounts (eraseTimes c8good) = computeWordCounts c8good :=
  ⟨(c8_timeline_amended c8good (by with_unfolding_all decide)).1
      ((speakerTimelineSegments c8good).headI) (by with_unfolding_all decide),
   (c8_timeline_amended c8good (by with_unfolding_all decide)).2⟩

end MeetingBot
